import Mathlib

/-!
Verification of the bower-npm-resolver sources: a shallow embedding of
`src/resolver.js` (the resolver adapter: `match`, `releases`, `fetch`) and of the
npm-utils module (`normalizePkgName`, `getLastKey`, `releases`, `downloadTarball`),
together with theorems about the embedded operations.

Strings are handled through their character lists, mirroring JavaScript string
operations (single-character `split`, `indexOf`, `slice`, character indexing, the
default `Array.prototype.sort` comparator) by executable functions on `List Char`.

The asynchronous promise chains are embedded denotationally: each chain is a
function from the outcomes of its external collaborators (registry calls, download,
extraction, streams) to the settled state of the promise, together with the
observable effects of the invocation (directories created and removed, external
calls made, files visible at their final path).
-/

namespace BowerNpmResolver

/-- Errors a JavaScript computation can fail with in this codebase: a ReferenceError
from reading an identifier that is not defined, a TypeError from reading a property
of `undefined`, or an error produced by an external collaborator (registry, network,
filesystem). -/
inductive JsError where
  | refError (ident : String)
  | typeError (prop : String)
  | ext (msg : String)
deriving DecidableEq

/-- The settled state of a JavaScript promise. -/
inductive Settled (α : Type) where
  | fulfilled (a : α)
  | rejected (e : JsError)
deriving DecidableEq

/-- JavaScript `s.split(sep)` for a one-character separator, on the character list of
the string: `"a=b".split("=")` gives `["a","b"]` and `"".split("=")` gives `[""]`. -/
def splitOnChar (sep : Char) : List Char → List (List Char)
  | [] => [[]]
  | c :: t =>
    if c = sep then [] :: splitOnChar sep t
    else
      match splitOnChar sep t with
      | [] => [c] :: []
      | h :: r => (c :: h) :: r

/-- `extractPackageName` from `src/resolver.js`:
`source.split('=')[0].slice(4)` — the part of the source before the first `=`, with
its first four characters (the length of the reserved scheme token) removed. -/
def extractPackageName (source : String) : String :=
  String.mk (((splitOnChar '=' source.data).headD []).drop 4)

/-- Does `pat` occur at the start of `hay`?  (JavaScript substring test at a fixed
position, by character.) -/
def beginsWith : List Char → List Char → Bool
  | [], _ => true
  | _ :: _, [] => false
  | p :: ps, c :: cs => p == c && beginsWith ps cs

/-- JavaScript `String.prototype.indexOf`: index of the first occurrence of `pat` in
`hay` scanning from accumulated index `i`, and `-1` when there is none. -/
def jsIndexOfAux (pat : List Char) : List Char → Nat → Int
  | [], i => if beginsWith pat [] then (i : Int) else -1
  | c :: t, i => if beginsWith pat (c :: t) then (i : Int) else jsIndexOfAux pat t (i + 1)

/-- JavaScript `s.indexOf(pat)`. -/
def jsIndexOf (s pat : String) : Int :=
  jsIndexOfAux pat.data s.data 0

/-- `match` from `src/resolver.js`: `source.indexOf('npm+') === 0`. -/
def matchSource (source : String) : Bool :=
  jsIndexOf source "npm+" == 0

/-- Character substitution applied by the `.replace(/\//g, '-')` call of
`normalizePkgName`: every slash becomes a dash. -/
def replaceSlash (c : Char) : Char :=
  if c = '/' then '-' else c

/-- `normalizePkgName` from the npm-utils module:
`name[0] === '@' ? name.substr(1).replace(/\//g, '-') : name`. -/
def normalizePkgName (name : String) : String :=
  if name.data.head? = some '@' then
    String.mk ((name.data.drop 1).map replaceSlash)
  else name

/-- Node `path.join` on a directory and a relative file name.  All call sites in this
codebase pass a directory without trailing separator and a plain relative segment, on
which `path.join` is concatenation with one separator; node `path` is an external
collaborator, embedded for exactly these inputs. -/
def pathJoin (a b : String) : String :=
  a ++ "/" ++ b

/-- Node `path.resolve` on a directory argument.  The embedding works over directory
paths that are already absolute and normalized, on which `path.resolve` is the
identity; the spec calls its output the resolved target directory. -/
def pathResolve (dir : String) : String :=
  dir

/-- The comparison behind JavaScript default `Array.prototype.sort` on strings:
lexicographic order on the sequences of character codes (`x` sorts no later than
`y`). -/
def lexLeb : List Char → List Char → Bool
  | [], _ => true
  | _ :: _, [] => false
  | a :: as, b :: bs =>
    if a.toNat < b.toNat then true
    else if b.toNat < a.toNat then false
    else lexLeb as bs

/-- The sort order used by the `keys.sort()` call in `getLastKey`, as a relation. -/
def jsLe (a b : String) : Prop :=
  lexLeb a.data b.data = true

instance : DecidableRel jsLe := fun a b => by unfold jsLe; infer_instance

/-- `getLastKey` from the npm-utils module: `Object.keys(o)` sorted with the default
comparator, then the element at index `length - 1`; `none` embeds the `undefined`
produced by indexing an empty key array at `-1`. -/
def getLastKey (keys : List String) : Option String :=
  (List.insertionSort jsLe keys).getLast?

/-- JavaScript property read `o[k]` on an object embedded as a key-value list. -/
def jsGet (m : List (String × List String)) (k : String) : Option (List String) :=
  (m.find? (fun p => p.1 == k)).map (fun p => p.2)

/-- Shape of the data the `npm view pkg versions` command resolves with: either a
flat array of version strings, or an object keyed by version strings whose entries
carry a nested `versions` list. -/
inductive ViewData where
  | arr (versions : List String)
  | map (entries : List (String × List String))
deriving DecidableEq

/-- The unwrapping step of `releases` in the npm-utils module: an array is returned
unchanged; otherwise the entry under `getLastKey(data)` is read and its `versions`
field returned.  On an object with no keys the selected key is `undefined`, the
indexing yields `undefined`, and the `.versions` read raises a TypeError that rejects
the promise. -/
def npmReleasesFromView : ViewData → Except JsError (List String)
  | .arr vs => .ok vs
  | .map m =>
    match getLastKey (m.map (fun p => p.1)) with
    | none => .error (.typeError "versions")
    | some k =>
      match jsGet m k with
      | some vs => .ok vs
      | none => .error (.typeError "versions")

/-- `releases` from the npm-utils module: the registry view command
`execViewCommand([pkg, 'versions'])` — abstracted as a function from the package name
to its outcome — followed by the unwrapping step. -/
def npmUtilsReleases (registry : String → Except JsError ViewData) (pkg : String) :
    Except JsError (List String) :=
  match registry pkg with
  | .error e => .error e
  | .ok data => npmReleasesFromView data

instance {ε α : Type} [DecidableEq ε] [DecidableEq α] : DecidableEq (Except ε α) := fun x y =>
  match x, y with
  | .ok a, .ok b => decidable_of_iff (a = b) (by simp)
  | .ok _, .error _ => isFalse (fun h => Except.noConfusion h)
  | .error _, .ok _ => isFalse (fun h => Except.noConfusion h)
  | .error e, .error f => decidable_of_iff (e = f) (by simp)

/-- A `{target, version}` pair handed back to bower by `releases`. -/
structure BowerRelease where
  target : String
  version : String
deriving DecidableEq

/-- Observable outcome of one call to the adapter `releases`: the settled value and
the package names passed down to the npm-utils `releases` call. -/
structure ReleasesReturn where
  result : Except JsError (List BowerRelease)
  calls : List String
deriving DecidableEq

/-- `releases` from `src/resolver.js`: extract the package name from the source
string, call `npmUtils.releases(pkg)`, and map each version string `v` of the result
to `{target: v, version: v}`. -/
def resolverReleases (registry : String → Except JsError ViewData) (source : String) :
    ReleasesReturn :=
  let pkg := extractPackageName source
  { result :=
      match npmUtilsReleases registry pkg with
      | .error e => .error e
      | .ok vs => .ok (vs.map (fun v => { target := v, version := v }))
    calls := [pkg] }

/-- A bower endpoint: the raw source string and the target version bower selected. -/
structure Endpoint where
  source : String
  target : String
deriving DecidableEq

/-- The `cached` argument of `fetch`; `version` is `none` when the field is absent. -/
structure CachedEntry where
  version : Option String
deriving DecidableEq

/-- The truthiness test `cached && cached.version` guarding `fetch` in
`src/resolver.js`: the entry exists and its `version` field is a truthy (present and
non-empty) string. -/
def cacheHit : Option CachedEntry → Bool
  | none => false
  | some c =>
    match c.version with
    | none => false
    | some v => !(v == "")

/-- The three external steps of the fetch chain in `src/resolver.js`, which are code
of this repository not under `src/`.  Modelled from the spec: the npm-utils `tarball`
operation resolves a package name and version to the tarball to materialize (§4.3
step Resolving-Tarball), the download module is a generic download-to-directory
utility (§2), and the extract module is a generic tar.gz-extraction utility targeting
a directory (§2, §4.3 step Extracting).  Each is an abstract fallible operation; the
theorems quantify over their outcomes. -/
structure FetchEnv where
  tarball : String → String → Except JsError String
  download : String → String → Except JsError String
  extractTgz : String → String → Except JsError String

/-- One call made by the fetch chain to an external step, with its arguments. -/
inductive ExtCall where
  | tarball (pkg version : String)
  | download (url dir : String)
  | extractTgz (tarballPath dir : String)
deriving DecidableEq

/-- The value `fetch` resolves with on full success. -/
structure FetchResult where
  tempPath : String
  removeIgnores : Bool
deriving DecidableEq

/-- What `fetch` hands back to bower: `undefined` on a cache hit, otherwise a
promise with its settled state. -/
inductive FetchValue where
  | noop
  | promise (s : Settled FetchResult)
deriving DecidableEq

/-- Observable outcome of one `fetch` invocation: the returned value, the temporary
directories created and removed by the invocation before it settles, and the
external calls it made. -/
structure FetchReturn where
  value : FetchValue
  createdDirs : List String
  removedDirs : List String
  calls : List ExtCall
deriving DecidableEq

/-- The `.then` chain of `fetch` (`src/resolver.js` lines 86-104):
`npmUtils.tarball(pkg, target)`, then `download.fetch(url, tmpTar.name)`, then
`extract.tgz(tarball, tmpPackage.name)`, then the fulfilled value
`{tempPath: path.join(dir, 'package'), removeIgnores: true}`.  Returns the settled
state of the chain before the `.catch` step, together with the external calls
made. -/
def runChain (env : FetchEnv) (pkg version tmpTarDir tmpPackageDir : String) :
    Settled FetchResult × List ExtCall :=
  match env.tarball pkg version with
  | .error e => (.rejected e, [.tarball pkg version])
  | .ok url =>
    match env.download url tmpTarDir with
    | .error e => (.rejected e, [.tarball pkg version, .download url tmpTarDir])
    | .ok tb =>
      match env.extractTgz tb tmpPackageDir with
      | .error e =>
        (.rejected e,
          [.tarball pkg version, .download url tmpTarDir, .extractTgz tb tmpPackageDir])
      | .ok dir =>
        (.fulfilled { tempPath := pathJoin dir "package", removeIgnores := true },
          [.tarball pkg version, .download url tmpTarDir, .extractTgz tb tmpPackageDir])

/-- The `.catch` handler of `fetch` (`src/resolver.js` lines 107-109).  Its body runs
`tmpDir.removeCallback()`, but no identifier `tmpDir` is defined anywhere in scope
(the directories in scope are `tmpTar` and `tmpPackage`), so on the rejected path the
handler itself throws a ReferenceError before removing anything: the chain stays
rejected, with the original reason replaced by the ReferenceError.  A fulfilled value
passes through a `.catch` untouched. -/
def catchStep : Settled FetchResult → Settled FetchResult
  | .fulfilled r => .fulfilled r
  | .rejected _ => .rejected (.refError "tmpDir")

/-- `fetch` from `src/resolver.js`: short-circuit returning `undefined` on a cache
hit; otherwise create the two temporary directories, run the chain, apply the
`.catch` handler, and run the `.finally` step, which removes the tar holding
directory whatever the outcome and preserves the settled state. -/
def fetchModel (env : FetchEnv) (tmpTarDir tmpPackageDir : String) (endpoint : Endpoint)
    (cached : Option CachedEntry) : FetchReturn :=
  if cacheHit cached then
    { value := .noop, createdDirs := [], removedDirs := [], calls := [] }
  else
    let pkg := extractPackageName endpoint.source
    let rc := runChain env pkg endpoint.target tmpTarDir tmpPackageDir
    { value := .promise (catchStep rc.1)
      createdDirs := [tmpTarDir, tmpPackageDir]
      removedDirs := [tmpTarDir]
      calls := rc.2 }

/-- Metadata the npm cache command resolves with inside `downloadTarball`: the
manifest name and version (the tarball input stream itself is abstracted; its
behavior is a `StreamOutcome`). -/
structure CacheInfo where
  name : String
  version : String
deriving DecidableEq

/-- Outcome of the streaming phase of `downloadTarball`: the output stream closes
normally, or the first error event comes from the input (source) stream, or from the
output (destination) stream. -/
inductive StreamOutcome where
  | success
  | srcError (e : JsError)
  | dstError (e : JsError)
deriving DecidableEq

/-- Observable outcome of one `downloadTarball` call: the settled promise and the
files visible at their final output path when it settles. -/
structure DTReturn where
  result : Settled String
  filesAtFinalPath : List String
deriving DecidableEq

/-- `downloadTarball` from the npm-utils module: run the cache command; on its
success compute `outputFile = path.join(path.resolve(dir), fileName)` with
`fileName` the normalized name, a dash, the version and `.tgz`, then stream the
tarball into `outputFile` through `fs-write-stream-atomic`.  A stream error event
rejects the deferred with the stream's error; the `close` event resolves it with
`outputFile`.  The atomic-write collaborator is modelled from the spec: a file
becomes visible at the final path only when the output stream closes successfully
(§4.2; glossary, Atomic write). -/
def downloadTarballModel (cacheOutcome : Except JsError CacheInfo)
    (stream : StreamOutcome) (dir : String) : DTReturn :=
  match cacheOutcome with
  | .error e => { result := .rejected e, filesAtFinalPath := [] }
  | .ok info =>
    let targetDir := pathResolve dir
    let fileName := normalizePkgName info.name ++ "-" ++ info.version ++ ".tgz"
    let outputFile := pathJoin targetDir fileName
    match stream with
    | .success => { result := .fulfilled outputFile, filesAtFinalPath := [outputFile] }
    | .srcError e => { result := .rejected e, filesAtFinalPath := [] }
    | .dstError e => { result := .rejected e, filesAtFinalPath := [] }

/-- An environment in which every external step of the fetch chain succeeds and the
extractor resolves with the directory it was given. -/
def envAllOk : FetchEnv :=
  { tarball := fun _ _ => .ok "https://registry.npmjs.org/foo/-/foo-1.0.0.tgz"
    download := fun _ dir => .ok (pathJoin dir "foo-1.0.0.tgz")
    extractTgz := fun _ dir => .ok dir }

/-- An environment in which the tarball resolution step fails with a registry
error. -/
def envTarballFails : FetchEnv :=
  { tarball := fun _ _ => .error (.ext "ENOTFOUND registry.npmjs.org")
    download := fun _ dir => .ok (pathJoin dir "foo-1.0.0.tgz")
    extractTgz := fun _ dir => .ok dir }

/-- A registry whose view command resolves with an object that has no keys. -/
def emptyMapRegistry : String → Except JsError ViewData :=
  fun _ => .ok (.map [])

theorem splitOnChar_ne_nil (sep : Char) : ∀ (l : List Char), splitOnChar sep l ≠ []
  | [] => by simp [splitOnChar]
  | c :: t => by
    simp only [splitOnChar]
    split
    · simp
    · split
      · simp
      · simp

theorem splitOnChar_headD_append (sep : Char) :
    ∀ (l r : List Char), sep ∉ l → (splitOnChar sep (l ++ sep :: r)).headD [] = l
  | [], r, _ => by simp [splitOnChar]
  | c :: l, r, h => by
    have hc : c ≠ sep := fun hh => h (hh ▸ List.mem_cons_self c l)
    have hl : sep ∉ l := fun hh => h (List.mem_cons_of_mem c hh)
    have ih := splitOnChar_headD_append sep l r hl
    obtain ⟨hd, tl, heq⟩ := List.exists_cons_of_ne_nil (splitOnChar_ne_nil sep (l ++ sep :: r))
    rw [heq, List.headD_cons] at ih
    rw [List.cons_append]
    simp only [splitOnChar, if_neg hc]
    rw [heq]
    simp only [List.headD_cons]
    exact congrArg (List.cons c) ih

theorem extractPackageName_concat (name target : String) (h : ('=' : Char) ∉ name.data) :
    extractPackageName ("npm+" ++ name ++ "=" ++ target) = name := by
  have hdata : ("npm+" ++ name ++ "=" ++ target).data
      = ('n' :: 'p' :: 'm' :: '+' :: name.data) ++ '=' :: target.data := by
    simp [String.data_append]
  have hnotin : ('=' : Char) ∉ ('n' :: 'p' :: 'm' :: '+' :: name.data) := by
    intro hmem
    simp only [List.mem_cons] at hmem
    rcases hmem with h1 | h1 | h1 | h1 | h1
    · exact absurd h1 (by decide)
    · exact absurd h1 (by decide)
    · exact absurd h1 (by decide)
    · exact absurd h1 (by decide)
    · exact h h1
  unfold extractPackageName
  rw [hdata, splitOnChar_headD_append _ _ _ hnotin]
  exact String.ext rfl

theorem jsIndexOfAux_succ_ne_zero (pat : List Char) :
    ∀ (hay : List Char) (i : Nat), jsIndexOfAux pat hay (i + 1) ≠ 0
  | [], i => by
    simp only [jsIndexOfAux]
    split
    · omega
    · omega
  | c :: t, i => by
    simp only [jsIndexOfAux]
    split
    · omega
    · exact jsIndexOfAux_succ_ne_zero pat t (i + 1)

theorem jsIndexOfAux_zero_beq (pat : List Char) :
    ∀ (hay : List Char), (jsIndexOfAux pat hay 0 == 0) = beginsWith pat hay
  | [] => by
    simp only [jsIndexOfAux]
    cases hbw : beginsWith pat [] <;> simp [hbw]
  | c :: t => by
    simp only [jsIndexOfAux]
    cases hbw : beginsWith pat (c :: t) with
    | true => simp [hbw]
    | false =>
      simp only [hbw, Bool.false_eq_true, if_false]
      exact beq_eq_false_iff_ne.mpr (jsIndexOfAux_succ_ne_zero pat t 0)

theorem map_replaceSlash_of_no_slash :
    ∀ (l : List Char), ('/' : Char) ∉ l → l.map replaceSlash = l
  | [], _ => rfl
  | c :: t, h => by
    have hc : c ≠ '/' := fun hh => h (hh ▸ List.mem_cons_self c t)
    have ht := map_replaceSlash_of_no_slash t (fun hh => h (List.mem_cons_of_mem c hh))
    simp [replaceSlash, hc, ht]

theorem lexLeb_refl : ∀ (l : List Char), lexLeb l l = true
  | [] => rfl
  | a :: as => by
    simp only [lexLeb, lt_irrefl, if_false]
    exact lexLeb_refl as

theorem lexLeb_total : ∀ (x y : List Char), lexLeb x y = true ∨ lexLeb y x = true
  | [], _ => Or.inl rfl
  | _ :: _, [] => Or.inr rfl
  | a :: as, b :: bs => by
    by_cases h1 : a.toNat < b.toNat
    · left
      simp [lexLeb, h1]
    · by_cases h2 : b.toNat < a.toNat
      · right
        simp [lexLeb, h2]
      · have ih := lexLeb_total as bs
        simpa [lexLeb, h1, h2] using ih

theorem lexLeb_trans :
    ∀ (x y z : List Char), lexLeb x y = true → lexLeb y z = true → lexLeb x z = true
  | [], _, _, _, _ => rfl
  | a :: as, [], z, h1, _ => absurd h1 (by simp [lexLeb])
  | _ :: _, _ :: _, [], _, h2 => absurd h2 (by simp [lexLeb])
  | a :: as, b :: bs, c :: cs, h1, h2 => by
    simp only [lexLeb] at h1 h2 ⊢
    rcases Nat.lt_trichotomy a.toNat b.toNat with hab | hab | hab
    · rcases Nat.lt_trichotomy b.toNat c.toNat with hbc | hbc | hbc
      · have hac : a.toNat < c.toNat := Nat.lt_trans hab hbc
        simp [hac]
      · have hac : a.toNat < c.toNat := hbc ▸ hab
        simp [hac]
      · have hx1 : ¬ b.toNat < c.toNat := by omega
        simp [hx1, hbc] at h2
    · rcases Nat.lt_trichotomy b.toNat c.toNat with hbc | hbc | hbc
      · have hac : a.toNat < c.toNat := hab ▸ hbc
        simp [hac]
      · have hx1 : ¬ a.toNat < b.toNat := by omega
        have hx2 : ¬ b.toNat < a.toNat := by omega
        have hx3 : ¬ a.toNat < c.toNat := by omega
        have hx4 : ¬ c.toNat < a.toNat := by omega
        have hx5 : ¬ b.toNat < c.toNat := by omega
        have hx6 : ¬ c.toNat < b.toNat := by omega
        simp only [hx1, hx2, if_false] at h1
        simp only [hx5, hx6, if_false] at h2
        simp only [hx3, hx4, if_false]
        exact lexLeb_trans as bs cs h1 h2
      · have hx1 : ¬ b.toNat < c.toNat := by omega
        simp [hx1, hbc] at h2
    · have hx1 : ¬ a.toNat < b.toNat := by omega
      simp [hx1, hab] at h1

instance : IsTotal String jsLe :=
  ⟨fun a b => lexLeb_total a.data b.data⟩

instance : IsTrans String jsLe :=
  ⟨fun a b c => lexLeb_trans a.data b.data c.data⟩

theorem jsLe_refl (a : String) : jsLe a a :=
  lexLeb_refl a.data

theorem mem_of_getLast_eq_some {α : Type} {l : List α} {k : α}
    (h : l.getLast? = some k) : k ∈ l := by
  cases l with
  | nil => cases h
  | cons a t =>
    rw [List.getLast?_eq_getLast (a :: t) (List.cons_ne_nil a t)] at h
    have hk : k = (a :: t).getLast (List.cons_ne_nil a t) := by
      injection h with hh
      exact hh.symm
    rw [hk]
    exact List.getLast_mem (List.cons_ne_nil a t)

theorem sorted_max_of_getLast :
    ∀ (l : List String), List.Sorted jsLe l → ∀ (k : String), l.getLast? = some k →
      ∀ x ∈ l, jsLe x k
  | [], _, k, hk => by cases hk
  | a :: t, hs, k, hk => by
    intro x hx
    cases t with
    | nil =>
      have hka : k = a := by
        simp only [List.getLast?_singleton] at hk
        injection hk with hh
        exact hh.symm
      have hxa : x = a := by simpa using hx
      rw [hka, hxa]
      exact jsLe_refl a
    | cons b t2 =>
      rw [List.getLast?_cons_cons] at hk
      rcases List.mem_cons.mp hx with hxa | hxt
      · have hkmem : k ∈ b :: t2 := mem_of_getLast_eq_some hk
        have hrel := List.rel_of_sorted_cons hs k hkmem
        exact hxa ▸ hrel
      · exact sorted_max_of_getLast (b :: t2) (List.Pairwise.of_cons hs) k hk x hxt

theorem getLastKey_spec (keys : List String) (hne : keys ≠ []) :
    ∃ k, getLastKey keys = some k ∧ k ∈ keys ∧ ∀ x ∈ keys, jsLe x k := by
  have hperm := List.perm_insertionSort jsLe keys
  have hsorted := List.sorted_insertionSort jsLe keys
  have hsne : List.insertionSort jsLe keys ≠ [] := by
    intro h0
    exact hne (List.Perm.eq_nil (h0 ▸ hperm.symm))
  obtain ⟨k, hk⟩ : ∃ k, (List.insertionSort jsLe keys).getLast? = some k := by
    rcases List.exists_cons_of_ne_nil hsne with ⟨a, t, heq⟩
    rw [heq]
    exact ⟨(a :: t).getLast (List.cons_ne_nil a t),
      List.getLast?_eq_getLast (a :: t) (List.cons_ne_nil a t)⟩
  refine ⟨k, hk, ?_, ?_⟩
  · exact hperm.mem_iff.mp (mem_of_getLast_eq_some hk)
  · intro x hx
    exact sorted_max_of_getLast _ hsorted k hk x (hperm.mem_iff.mpr hx)

theorem jsGet_of_mem_keys (m : List (String × List String)) (k : String)
    (hk : k ∈ m.map (fun p => p.1)) :
    ∃ vs, jsGet m k = some vs ∧ (k, vs) ∈ m := by
  have hex : ∃ p ∈ m, (p.1 == k) = true := by
    rcases List.mem_map.mp hk with ⟨p, hp, hpk⟩
    exact ⟨p, hp, beq_iff_eq.mpr hpk⟩
  have hsome : (m.find? (fun p => p.1 == k)).isSome = true := List.find?_isSome.mpr hex
  rcases Option.isSome_iff_exists.mp hsome with ⟨p0, hp0⟩
  have hpk : p0.1 = k := by
    have hfind := List.find?_some hp0
    simp only [beq_iff_eq] at hfind
    exact hfind
  have hpmem : p0 ∈ m := List.mem_of_find?_eq_some hp0
  refine ⟨p0.2, ?_, ?_⟩
  · unfold jsGet
    rw [hp0]
    rfl
  · have hpair : (k, p0.2) = p0 := by
      rw [← hpk]
    exact hpair ▸ hpmem

theorem runChain_calls_head (env : FetchEnv) (pkg version a b : String) :
    (runChain env pkg version a b).2.head? = some (.tarball pkg version) := by
  cases htb : env.tarball pkg version with
  | error e => simp [runChain, htb]
  | ok url =>
    cases hdl : env.download url a with
    | error e => simp [runChain, htb, hdl]
    | ok tb =>
      cases hex : env.extractTgz tb b with
      | error e => simp [runChain, htb, hdl, hex]
      | ok dir => simp [runChain, htb, hdl, hex]

/-- C9: for every source string, `match` returns true if and only if the string
begins with the reserved scheme token `npm+`. -/
theorem match_accepts_iff_npm_scheme (s : String) :
    matchSource s = true ↔ beginsWith "npm+".data s.data = true := by
  unfold matchSource jsIndexOf
  rw [jsIndexOfAux_zero_beq]

/-- C4: a `fetch` invocation whose `cached` argument carries a truthy version returns
`undefined` immediately: no temporary directory is created or removed, and no
external call is made. -/
theorem fetch_cache_hit_noop (env : FetchEnv) (tmpTarDir tmpPackageDir : String)
    (endpoint : Endpoint) (cached : Option CachedEntry) (h : cacheHit cached = true) :
    fetchModel env tmpTarDir tmpPackageDir endpoint cached =
      { value := .noop, createdDirs := [], removedDirs := [], calls := [] } := by
  simp [fetchModel, h]

/-- C4 witness: a concrete cache hit. -/
theorem fetch_cache_hit_noop_witness :
    cacheHit (some { version := some "1.7.7" }) = true ∧
    fetchModel envAllOk "/tmp/tar-1" "/tmp/pkg-1"
        { source := "npm+foo=1.0.0", target := "1.0.0" } (some { version := some "1.7.7" }) =
      { value := .noop, createdDirs := [], removedDirs := [], calls := [] } :=
  ⟨rfl, fetch_cache_hit_noop envAllOk "/tmp/tar-1" "/tmp/pkg-1"
    { source := "npm+foo=1.0.0", target := "1.0.0" } (some { version := some "1.7.7" }) rfl⟩

/-- C10: when the registry view command resolves with an object that has no keys,
`releases` does not resolve with an empty version list: the unwrapping step raises a
TypeError reading `versions` and the operation rejects with it. -/
theorem releases_empty_map_rejects :
    (resolverReleases emptyMapRegistry "npm+foo=1.0.0").result
        = .error (.typeError "versions") ∧
    (resolverReleases emptyMapRegistry "npm+foo=1.0.0").result ≠ .ok [] := by
  exact ⟨rfl, by decide⟩

/-- C7: a `downloadTarball` invocation in which the source stream or the destination
stream signals an error rejects with exactly that error, resolves no result, and
leaves no file visible at the final output path. -/
theorem downloadTarball_stream_error_rejects (dir : String) (info : CacheInfo)
    (e : JsError) :
    downloadTarballModel (.ok info) (.srcError e) dir
        = { result := .rejected e, filesAtFinalPath := [] } ∧
    downloadTarballModel (.ok info) (.dstError e) dir
        = { result := .rejected e, filesAtFinalPath := [] } :=
  ⟨rfl, rfl⟩

/-- C1: for a non-cache-hit fetch invocation, after the two temporary directories are
allocated the chain resolves the tarball and downloads it into the tar holding
directory, and when download and extraction succeed (the extractor resolving with its
target directory) fetch resolves with
`{tempPath: <extractionDir>/package, removeIgnores: true}`. -/
theorem fetch_success_resolves_package_dir (env : FetchEnv)
    (tmpTarDir tmpPackageDir url tb : String) (endpoint : Endpoint)
    (cached : Option CachedEntry) (h0 : cacheHit cached = false)
    (h1 : env.tarball (extractPackageName endpoint.source) endpoint.target = .ok url)
    (h2 : env.download url tmpTarDir = .ok tb)
    (h3 : env.extractTgz tb tmpPackageDir = .ok tmpPackageDir) :
    fetchModel env tmpTarDir tmpPackageDir endpoint cached =
      { value := .promise (.fulfilled
          { tempPath := pathJoin tmpPackageDir "package", removeIgnores := true })
        createdDirs := [tmpTarDir, tmpPackageDir]
        removedDirs := [tmpTarDir]
        calls := [.tarball (extractPackageName endpoint.source) endpoint.target,
          .download url tmpTarDir, .extractTgz tb tmpPackageDir] } := by
  simp [fetchModel, h0, runChain, h1, h2, h3, catchStep]

/-- C1 witness: a concrete fully successful run. -/
theorem fetch_success_resolves_package_dir_witness :
    cacheHit none = false ∧
    envAllOk.tarball (extractPackageName "npm+foo=1.0.0") "1.0.0"
        = .ok "https://registry.npmjs.org/foo/-/foo-1.0.0.tgz" ∧
    envAllOk.download "https://registry.npmjs.org/foo/-/foo-1.0.0.tgz" "/tmp/tar-2"
        = .ok "/tmp/tar-2/foo-1.0.0.tgz" ∧
    envAllOk.extractTgz "/tmp/tar-2/foo-1.0.0.tgz" "/tmp/pkg-2" = .ok "/tmp/pkg-2" ∧
    fetchModel envAllOk "/tmp/tar-2" "/tmp/pkg-2"
        { source := "npm+foo=1.0.0", target := "1.0.0" } none =
      { value := .promise (.fulfilled
          { tempPath := "/tmp/pkg-2/package", removeIgnores := true })
        createdDirs := ["/tmp/tar-2", "/tmp/pkg-2"]
        removedDirs := ["/tmp/tar-2"]
        calls := [.tarball "foo" "1.0.0",
          .download "https://registry.npmjs.org/foo/-/foo-1.0.0.tgz" "/tmp/tar-2",
          .extractTgz "/tmp/tar-2/foo-1.0.0.tgz" "/tmp/pkg-2"] } :=
  ⟨rfl, rfl, rfl, rfl, fetch_success_resolves_package_dir envAllOk "/tmp/tar-2" "/tmp/pkg-2"
    "https://registry.npmjs.org/foo/-/foo-1.0.0.tgz" "/tmp/tar-2/foo-1.0.0.tgz"
    { source := "npm+foo=1.0.0", target := "1.0.0" } none rfl rfl rfl rfl⟩

/-- C2 counterexample: on a fully successful fetch invocation the operation settles
fulfilled while the extraction directory, created by the invocation, is not among the
directories it removed. -/
theorem fetch_success_leaves_extraction_dir :
    (fetchModel envAllOk "/tmp/tar-3" "/tmp/pkg-3"
        { source := "npm+foo=1.0.0", target := "1.0.0" } none).value
      = .promise (.fulfilled { tempPath := "/tmp/pkg-3/package", removeIgnores := true }) ∧
    "/tmp/pkg-3" ∈ (fetchModel envAllOk "/tmp/tar-3" "/tmp/pkg-3"
        { source := "npm+foo=1.0.0", target := "1.0.0" } none).createdDirs ∧
    "/tmp/pkg-3" ∉ (fetchModel envAllOk "/tmp/tar-3" "/tmp/pkg-3"
        { source := "npm+foo=1.0.0", target := "1.0.0" } none).removedDirs := by
  refine ⟨rfl, by decide, by decide⟩

/-- C2 amended: on every non-cache-hit fetch invocation, whatever the chain's
outcome, exactly the tar holding directory is removed by settle time (the
finalization step runs on success and failure alike); the extraction directory is
never removed by the invocation itself. -/
theorem fetch_removes_only_tar_dir (env : FetchEnv) (tmpTarDir tmpPackageDir : String)
    (endpoint : Endpoint) (cached : Option CachedEntry)
    (h0 : cacheHit cached = false) (hne : tmpPackageDir ≠ tmpTarDir) :
    (fetchModel env tmpTarDir tmpPackageDir endpoint cached).removedDirs = [tmpTarDir] ∧
    tmpPackageDir ∉ (fetchModel env tmpTarDir tmpPackageDir endpoint cached).removedDirs := by
  have hrem : (fetchModel env tmpTarDir tmpPackageDir endpoint cached).removedDirs
      = [tmpTarDir] := by
    simp [fetchModel, h0]
  refine ⟨hrem, ?_⟩
  rw [hrem]
  simp [hne]

/-- C2 amended witness: a concrete failing run still removes exactly the tar holding
directory. -/
theorem fetch_removes_only_tar_dir_witness :
    cacheHit none = false ∧ ("/tmp/pkg-4" : String) ≠ "/tmp/tar-4" ∧
    (fetchModel envTarballFails "/tmp/tar-4" "/tmp/pkg-4"
        { source := "npm+foo=1.0.0", target := "1.0.0" } none).removedDirs = ["/tmp/tar-4"] ∧
    "/tmp/pkg-4" ∉ (fetchModel envTarballFails "/tmp/tar-4" "/tmp/pkg-4"
        { source := "npm+foo=1.0.0", target := "1.0.0" } none).removedDirs :=
  ⟨rfl, by decide, fetch_removes_only_tar_dir envTarballFails "/tmp/tar-4" "/tmp/pkg-4"
    { source := "npm+foo=1.0.0", target := "1.0.0" } none rfl (by decide)⟩

/-- C3: evaluation at the failing input.  When tarball resolution fails, the `.catch`
handler of `fetch` reads the undefined identifier `tmpDir`, so the promise rejects
with a ReferenceError instead of the originating registry error, and the extraction
directory is not removed. -/
theorem fetch_failure_rejects_with_reference_error :
    (fetchModel envTarballFails "/tmp/tar-5" "/tmp/pkg-5"
        { source := "npm+foo=1.0.0", target := "1.0.0" } none).value
      = .promise (.rejected (.refError "tmpDir")) ∧
    (fetchModel envTarballFails "/tmp/tar-5" "/tmp/pkg-5"
        { source := "npm+foo=1.0.0", target := "1.0.0" } none).value
      ≠ .promise (.rejected (.ext "ENOTFOUND registry.npmjs.org")) ∧
    "/tmp/pkg-5" ∉ (fetchModel envTarballFails "/tmp/tar-5" "/tmp/pkg-5"
        { source := "npm+foo=1.0.0", target := "1.0.0" } none).removedDirs := by
  refine ⟨rfl, by decide, by decide⟩

/-- A registry whose view command resolves with a flat array of version strings. -/
def regArrEx : String → Except JsError ViewData :=
  fun _ => .ok (.arr ["1.0.0", "1.1.0"])

/-- A registry whose view command resolves with a one-entry object keyed by a
version string. -/
def regMapEx : String → Except JsError ViewData :=
  fun _ => .ok (.map [("1.7.7", ["1.0.0", "1.1.0"])])

/-- C5: `releases` maps the registry version list element-wise into `{target,
version}` pairs with both fields equal to the version string: a flat array response
is used unchanged and in order, and a map response contributes the nested `versions`
list of its entry under the last key in the order of `keys.sort()`. -/
theorem releases_maps_version_list
    (reg1 reg2 : String → Except JsError ViewData) (src1 src2 : String)
    (vs : List String) (m : List (String × List String))
    (h1 : reg1 (extractPackageName src1) = .ok (.arr vs))
    (h2 : reg2 (extractPackageName src2) = .ok (.map m))
    (hm : m ≠ []) :
    (resolverReleases reg1 src1).result
        = .ok (vs.map (fun v => { target := v, version := v })) ∧
    ∃ k ws, (k, ws) ∈ m ∧ (∀ x ∈ m.map (fun p => p.1), jsLe x k) ∧
      (resolverReleases reg2 src2).result
          = .ok (ws.map (fun v => { target := v, version := v })) := by
  constructor
  · simp [resolverReleases, npmUtilsReleases, h1, npmReleasesFromView]
  · have hkeys : m.map (fun p => p.1) ≠ [] := by
      simpa [List.map_eq_nil_iff] using hm
    obtain ⟨k, hk, hkmem, hkmax⟩ := getLastKey_spec (m.map (fun p => p.1)) hkeys
    obtain ⟨ws, hget, hpair⟩ := jsGet_of_mem_keys m k hkmem
    refine ⟨k, ws, hpair, hkmax, ?_⟩
    simp [resolverReleases, npmUtilsReleases, h2, npmReleasesFromView, hk, hget]

/-- C5 witness: a concrete flat-array response and a concrete one-entry map
response. -/
theorem releases_maps_version_list_witness :
    regArrEx (extractPackageName "npm+bower=1") = .ok (.arr ["1.0.0", "1.1.0"]) ∧
    regMapEx (extractPackageName "npm+lodash=2") = .ok (.map [("1.7.7", ["1.0.0", "1.1.0"])]) ∧
    ([("1.7.7", ["1.0.0", "1.1.0"])] : List (String × List String)) ≠ [] ∧
    ((resolverReleases regArrEx "npm+bower=1").result
        = .ok ((["1.0.0", "1.1.0"] : List String).map (fun v => { target := v, version := v })) ∧
      ∃ k ws, (k, ws) ∈ ([("1.7.7", ["1.0.0", "1.1.0"])] : List (String × List String)) ∧
        (∀ x ∈ ([("1.7.7", ["1.0.0", "1.1.0"])] : List (String × List String)).map (fun p => p.1),
          jsLe x k) ∧
        (resolverReleases regMapEx "npm+lodash=2").result
            = .ok (ws.map (fun v => { target := v, version := v }))) :=
  ⟨rfl, rfl, by simp, releases_maps_version_list regArrEx regMapEx "npm+bower=1" "npm+lodash=2"
    ["1.0.0", "1.1.0"] [("1.7.7", ["1.0.0", "1.1.0"])] rfl rfl (by simp)⟩

/-- C6: `downloadTarball` makes exactly one file visible, at
`<resolved target dir>/<normalized>-<version>.tgz`, and resolves with that path;
normalization turns a scoped `@scope/name` into `scope-name` and leaves a name that
does not start with `@` unchanged. -/
theorem downloadTarball_output_path (dir n scope pkgname : String) (info : CacheInfo)
    (hs : ('/' : Char) ∉ scope.data) (hp : ('/' : Char) ∉ pkgname.data)
    (hn : n.data.head? ≠ some '@') :
    downloadTarballModel (.ok info) .success dir =
      { result := .fulfilled (pathJoin (pathResolve dir)
          (normalizePkgName info.name ++ "-" ++ info.version ++ ".tgz"))
        filesAtFinalPath := [pathJoin (pathResolve dir)
          (normalizePkgName info.name ++ "-" ++ info.version ++ ".tgz")] } ∧
    normalizePkgName ("@" ++ scope ++ "/" ++ pkgname) = scope ++ "-" ++ pkgname ∧
    normalizePkgName n = n := by
  refine ⟨rfl, ?_, ?_⟩
  · have hdata : ("@" ++ scope ++ "/" ++ pkgname).data
        = '@' :: (scope.data ++ '/' :: pkgname.data) := by
      simp [String.data_append]
    unfold normalizePkgName
    rw [hdata]
    simp only [List.head?_cons]
    rw [if_pos trivial]
    simp only [List.drop_succ_cons, List.drop_zero]
    rw [List.map_append, map_replaceSlash_of_no_slash scope.data hs]
    simp only [List.map_cons]
    rw [map_replaceSlash_of_no_slash pkgname.data hp]
    apply String.ext
    simp [String.data_append, replaceSlash]
  · unfold normalizePkgName
    rw [if_neg hn]

/-- C6 witness: a concrete scoped name, unscoped name, manifest and directory. -/
theorem downloadTarball_output_path_witness :
    (('/' : Char) ∉ ("scope" : String).data) ∧
    (('/' : Char) ∉ ("pkg" : String).data) ∧
    (("bower" : String).data.head? ≠ some '@') ∧
    (downloadTarballModel (.ok { name := "@scope/pkg", version := "1.7.7" }) .success "/tmp/out" =
      { result := .fulfilled (pathJoin (pathResolve "/tmp/out")
          (normalizePkgName "@scope/pkg" ++ "-" ++ "1.7.7" ++ ".tgz"))
        filesAtFinalPath := [pathJoin (pathResolve "/tmp/out")
          (normalizePkgName "@scope/pkg" ++ "-" ++ "1.7.7" ++ ".tgz")] } ∧
      normalizePkgName ("@" ++ "scope" ++ "/" ++ "pkg") = "scope" ++ "-" ++ "pkg" ∧
      normalizePkgName "bower" = "bower") :=
  ⟨by decide, by decide, by decide,
    downloadTarball_output_path "/tmp/out" "bower" "scope" "pkg"
      { name := "@scope/pkg", version := "1.7.7" } (by decide) (by decide) (by decide)⟩

/-- C8 counterexample: with source `npm+foo=1.0.0` and endpoint target `9.9.9`, fetch
asks the tarball step for version `9.9.9` and not for `1.0.0`, the substring after
the first `=` of the source string: the target is not recovered from the source. -/
theorem fetch_target_not_from_source :
    (fetchModel envAllOk "/tmp/tar-6" "/tmp/pkg-6"
        { source := "npm+foo=1.0.0", target := "9.9.9" } none).calls.head?
      = some (.tarball "foo" "9.9.9") ∧
    (fetchModel envAllOk "/tmp/tar-6" "/tmp/pkg-6"
        { source := "npm+foo=1.0.0", target := "9.9.9" } none).calls.head?
      ≠ some (.tarball "foo" "1.0.0") := by
  refine ⟨rfl, by decide⟩

/-- C8 amended: for a well-formed source `npm+name=target` with `name` free of `=`,
the package name is recovered as exactly the substring between the scheme token and
the first `=`; the target is not parsed from the source string — `releases` queries
the registry for the recovered name only, and `fetch` passes the endpoint's separate
`target` field to the tarball step. -/
theorem source_name_recovery (name target epTarget tmpTarDir tmpPackageDir : String)
    (env : FetchEnv) (registry : String → Except JsError ViewData)
    (h : ('=' : Char) ∉ name.data) :
    extractPackageName ("npm+" ++ name ++ "=" ++ target) = name ∧
    (resolverReleases registry ("npm+" ++ name ++ "=" ++ target)).calls = [name] ∧
    (fetchModel env tmpTarDir tmpPackageDir
        { source := "npm+" ++ name ++ "=" ++ target, target := epTarget } none).calls.head?
      = some (.tarball name epTarget) := by
  have hname := extractPackageName_concat name target h
  refine ⟨hname, ?_, ?_⟩
  · simp [resolverReleases, hname]
  · have hcalls : (fetchModel env tmpTarDir tmpPackageDir
        { source := "npm+" ++ name ++ "=" ++ target, target := epTarget } none).calls
      = (runChain env (extractPackageName ("npm+" ++ name ++ "=" ++ target)) epTarget
          tmpTarDir tmpPackageDir).2 := by
      simp [fetchModel, cacheHit]
    rw [hcalls, hname]
    exact runChain_calls_head env name epTarget tmpTarDir tmpPackageDir

/-- C8 amended witness: a concrete well-formed source string. -/
theorem source_name_recovery_witness :
    (('=' : Char) ∉ ("underscore" : String).data) ∧
    (extractPackageName ("npm+" ++ "underscore" ++ "=" ++ "1.8.3") = "underscore" ∧
      (resolverReleases regArrEx ("npm+" ++ "underscore" ++ "=" ++ "1.8.3")).calls
          = ["underscore"] ∧
      (fetchModel envAllOk "/tmp/tar-7" "/tmp/pkg-7"
          { source := "npm+" ++ "underscore" ++ "=" ++ "1.8.3", target := "1.8.3" } none).calls.head?
        = some (.tarball "underscore" "1.8.3")) :=
  ⟨by decide, source_name_recovery "underscore" "1.8.3" "1.8.3" "/tmp/tar-7" "/tmp/pkg-7"
    envAllOk regArrEx (by decide)⟩

end BowerNpmResolver
